import Mathlib

/-!
# Verification of the dsync repository against its specification

Shallow embedding of the dsync sources (`src/repo.rs`, `src/gdrive.rs`,
`src/main.rs`) in Lean 4, together with theorems settling the claims about
the sync engine, the authenticated call executor, the credential cache,
the path index and the remote/local backends.

Conventions of the embedding:
* Machine paths (`PathBuf`) are modelled as lists of normalized segments
  (`Path := List String`); the repository root is `[]` (`PathBuf::from(".")`
  on the local side and `PathBuf::from("/")` on the remote side both denote
  the backend root after component normalization).
* Fallible Rust code returning `anyhow::Result` is modelled with
  `Except RtError`; a Rust panic (`unwrap`, out-of-bounds `Vec::remove`)
  is the distinguished error `RtError.panic`, while an error value
  returned to the caller (`bail!`, `format_err!`, an I/O error propagated
  with `?`) is `RtError.err`.
* Network and filesystem effects are made explicit: functions take the
  environment's responses as arguments and return, where a claim needs it,
  a trace of the backend operations or network calls they issue.
-/

namespace Dsync

/-- Normalized path: the list of segments below the backend root. -/
abbrev Path := List String

/-- Runtime outcome of fallible Rust code: `panic` models a process abort
(`Option::unwrap` on `None`, out-of-bounds indexing), `err` models an error
value returned to the caller (`anyhow` errors propagated with `?`). -/
inductive RtError where
  | panic (msg : String)
  | err (msg : String)
deriving DecidableEq, Repr

/-- Returns `true` exactly when the outcome is an error *returned to the caller*
(not a crash): handed back as a value through `anyhow::Result`. -/
def isCallerError {α : Type} : Except RtError α → Bool
  | .error (.err _) => true
  | _ => false

/-- Returns `true` exactly when the outcome is a Rust panic (a crash). -/
def isPanic {α : Type} : Except RtError α → Bool
  | .error (.panic _) => true
  | _ => false

/-- Model of `Option::unwrap`: panics on `None` (src: `.unwrap()` call sites). -/
def unwrapO {α : Type} : Option α → Except RtError α
  | none => .error (.panic "called Option::unwrap on a None value")
  | some a => .ok a

/-- Model of `Entry`: tagged union of directories and files (`repo.rs:19-22`,
with the `Dir` and `File` payloads of `repo.rs:7-17` inlined). -/
inductive Entry where
  | dir (id name : String)
  | file (id name shasum : String) (size : Nat)
deriving DecidableEq, Repr

/-- Model of `Entry::name` (`repo.rs:24-31`). -/
def Entry.name : Entry → String
  | .dir _ n => n
  | .file _ n _ _ => n

/-- Which side of the sync an operation is issued against. -/
inductive Side where
  | src
  | dst
deriving DecidableEq, Repr

/-- A backend operation issued by the sync engine (the `Repo` trait surface,
`repo.rs:39-45`). -/
inductive Op where
  | list (s : Side) (p : Path)
  | createDir (s : Side) (p : Path)
  | writeFile (s : Side) (p : Path)
  | copyFile (s : Side) (source dest : Path)
  | delete (s : Side) (p : Path)
deriving DecidableEq, Repr

/-- Model of `PathBuf::from(".")` (`repo.rs:115`): the backend root. -/
def syncRoot : Path := []

/-- The destination name map
`dsts.iter().map(|d| (d.name(), d)).collect::<HashMap<_,_>>()`
(`repo.rs:122`); on duplicate names the later entry wins, hence the
lookup scans the reversed list. -/
def dstMap (dsts : List Entry) (n : String) : Option Entry :=
  dsts.reverse.find? (fun d => d.name == n)

/-- The skip decision of the per-file match (`repo.rs:128-136`): the
`continue` fires exactly when the destination holds a *file* of the same
name whose `shasum` equals the source's.  Size plays no role. -/
def fileSkip (srcShasum : String) (dstEntry : Option Entry) : Bool :=
  match dstEntry with
  | some (.file _ _ s _) => srcShasum == s
  | _ => false

/-- Body of the `for entry in srcs` loop (`repo.rs:124-139`): the
operations issued for one source entry.  Every arm of the source falls
through without acting — the `Dir` arm is empty, and in the `File` arm
both the hash-equal `continue` and the fall-through issue nothing. -/
def entryOps (dsts : List Entry) : Entry → List Op
  | .dir _ _ => []
  | .file _ n s _ =>
    if fileSkip s (dstMap dsts n) then [] else []

/-- Model of `sync` (`repo.rs:114-148`).  Arguments are the results of the two
root `list` calls; the returned trace records every backend operation the
function issues, in order.  `srcs.sort_by(name cmp)` is the merge sort on
names (`repo.rs:120`). -/
def sync (srcRes dstRes : Except RtError (List Entry)) :
    List Op × Except RtError Unit :=
  match srcRes with
  | .error e => ([.list .src syncRoot], .error e)
  | .ok srcs =>
    match dstRes with
    | .error e => ([.list .src syncRoot, .list .dst syncRoot], .error e)
    | .ok dsts =>
      let sorted := srcs.mergeSort (fun a b => a.name ≤ b.name)
      ([.list .src syncRoot, .list .dst syncRoot]
          ++ sorted.foldr (fun e acc => entryOps dsts e ++ acc) [],
        .ok ())

/-- An HTTP response: status code and (already deserialized) body. -/
structure HttpResponse where
  status : Nat
  body : String
deriving DecidableEq, Repr

/-- Trace of the visible effects of one logical `call`: number of HTTP
requests sent and number of forced credential refreshes issued. -/
structure CallTrace where
  requests : Nat
  refreshes : Nat
deriving DecidableEq, Repr

/-- The `loop` of `RequestBuilder::call` (`gdrive.rs:156-185`).
`forceRefreshed` is the `force_refreshed` flag (`gdrive.rs:154`);
`reqIdx` counts the requests sent so far (it indexes `tokens` and
`responses`), `refreshes` counts the forced refreshes issued so far.
Branch structure as in the source: a 401 with the flag unset triggers
`auth.force_refresh` and another loop iteration; any response with the
flag set hits `bail!("Probably invalid account, investigate")`
(`gdrive.rs:181`); otherwise the parsed response is returned.
`fuel` only satisfies Lean's termination checker: once the flag is set
every branch exits, so the loop runs at most two iterations and the
fuel-exhausted arm is unreachable from `call` (which supplies fuel 2). -/
def callLoop (tokens : Nat → Except RtError String)
    (refreshResult : Except RtError String)
    (responses : Nat → Except RtError HttpResponse) :
    Nat → Bool → Nat → Nat → CallTrace × Except RtError String
  | 0, _, reqIdx, refreshes =>
    (⟨reqIdx, refreshes⟩, .error (.panic "unreachable: loop fuel exhausted"))
  | fuel + 1, forceRefreshed, reqIdx, refreshes =>
    match tokens reqIdx with
    | .error e => (⟨reqIdx, refreshes⟩, .error e)
    | .ok _token =>
      match responses reqIdx with
      | .error e => (⟨reqIdx + 1, refreshes⟩, .error e)
      | .ok resp =>
        if resp.status == 401 && !forceRefreshed then
          match refreshResult with
          | .error e => (⟨reqIdx + 1, refreshes + 1⟩, .error e)
          | .ok _newTok =>
            callLoop tokens refreshResult responses fuel true (reqIdx + 1) (refreshes + 1)
        else if forceRefreshed then
          (⟨reqIdx + 1, refreshes⟩,
            .error (.err "Probably invalid account, investigate"))
        else
          (⟨reqIdx + 1, refreshes⟩, .ok resp.body)

/-- Model of `RequestBuilder::call` (`gdrive.rs:152`): enter the loop with the
`force_refreshed` flag unset and empty trace. -/
def call (tokens : Nat → Except RtError String)
    (refreshResult : Except RtError String)
    (responses : Nat → Except RtError HttpResponse) :
    CallTrace × Except RtError String :=
  callLoop tokens refreshResult responses 2 false 0 0

/-- Model of `DriveInfo` (`main.rs:97-104`): cached bearer credential, its expiry
instant and the refresh secret.  Scopes are irrelevant to the claims and
omitted; `SystemTime` is modelled as `Nat`. -/
structure DriveInfo where
  accessToken : String
  accessUntil : Nat
  refreshToken : String
deriving DecidableEq, Repr

/-- The named-credential store (`IndexMap<String, DriveInfo>`). -/
abbrev Drives := List (String × DriveInfo)

/-- Result of `crate::auth::refresh` (`auth.rs:120-139`): expiry instant
and the fresh access token of the refreshed credential. -/
structure RefreshOutcome where
  validUntil : Nat
  accessToken : String
deriving DecidableEq, Repr

/-- In-place update of one entry of the store (`drives.get_mut(...)`
followed by field assignments, `main.rs:117-123`). -/
def updateDrive (ds : Drives) (n : String) (d : DriveInfo) : Drives :=
  ds.map (fun p => if p.1 == n then (n, d) else p)

/-- Model of `GDriveAuthorizer::force_refresh` after acquiring the lock
(`main.rs:112-131`): reads the store, panics if the named drive is absent
(`.unwrap()` at `main.rs:118`), then *unconditionally* issues the refresh
network call; on success it overwrites the cached token and expiry,
persists the store, and returns the new access token.  Returns
`(number of refresh network calls issued, updated store, result)`. -/
def forceRefresh (name : String) (drives : Drives)
    (refreshResult : Except RtError RefreshOutcome) :
    Nat × Drives × Except RtError String :=
  match drives.lookup name with
  | none => (0, drives, .error (.panic "called Option::unwrap on a None value"))
  | some d =>
    match refreshResult with
    | .error e => (1, drives, .error e)
    | .ok r =>
      (1,
        updateDrive drives name
          { d with accessToken := r.accessToken, accessUntil := r.validUntil },
        .ok r.accessToken)

/-- Model of `GDriveAuthorizer::token` (`main.rs:133-146`): returns the cached
token while `access_until > now`, otherwise falls through to
`force_refresh`. -/
def token (now : Nat) (name : String) (drives : Drives)
    (refreshResult : Except RtError RefreshOutcome) :
    Nat × Drives × Except RtError String :=
  match drives.lookup name with
  | none => (0, drives, .error (.panic "called Option::unwrap on a None value"))
  | some d =>
    if now < d.accessUntil then (0, drives, .ok d.accessToken)
    else forceRefresh name drives refreshResult

/-- A file object of the remote API (`gdrive.rs:61-106`), restricted to
the fields requested by `list` (`gdrive.rs:416`): `id, name, size,
sha256Checksum, mimeType, trashed`.  Absent JSON fields are `none`. -/
structure GFile where
  id : Option String
  name : Option String
  mimeType : Option String
  sha256Checksum : Option String
  size : Option Nat
  trashed : Option Bool
deriving DecidableEq, Repr

/-- The folder MIME type (`gdrive.rs:432`). -/
def folderMime : String := "application/vnd.google-apps.folder"

/-- Conversion of one fetched file object into an `Entry`
(`gdrive.rs:430-445`): folders take `id` and `name`, everything else
takes `id`, `name`, `sha256Checksum` and `size` — each through
`Option::unwrap`, which panics when the field is missing. -/
def toEntry (f : GFile) : Except RtError Entry :=
  if f.mimeType == some folderMime then do
    let i ← unwrapO f.id
    let n ← unwrapO f.name
    return .dir i n
  else do
    let i ← unwrapO f.id
    let n ← unwrapO f.name
    let s ← unwrapO f.sha256Checksum
    let z ← unwrapO f.size
    return .file i n s z

/-- The page loop of `list` (`gdrive.rs:405-426`): fetch a page, append
its files, continue while a continuation cursor is present.  With the
page-list model this concatenates the pages in order. -/
def fetchAllPages : List (List GFile) → List GFile
  | [] => []
  | p :: rest => p ++ fetchAllPages rest

/-- Model of `GDriveRepo::list` (`gdrive.rs:397-447`): resolve the directory id in
the path index (`format_err!("Missing dir: ...")` when absent — an error
returned to the caller), fetch and aggregate all pages, then convert
every file object in order (the first conversion panic aborts). -/
def gdriveList (dirs : List (Path × String)) (path : Path)
    (pages : List (List GFile)) : Except RtError (List Entry) :=
  match dirs.lookup path with
  | none => .error (.err "Missing dir")
  | some _dirId => (fetchAllPages pages).mapM toEntry

/-- A well-formed non-folder file object used in the C6 witness. -/
def witFile : GFile :=
  { id := some "fid", name := some "f.bin", mimeType := some "application/octet-stream",
    sha256Checksum := some "deadbeef", size := some 4096, trashed := some false }

/-- The C9 counterexample input: a non-folder entry with `id`, `name` and
`size` present but no `sha256Checksum`. -/
def hashlessFile : GFile :=
  { id := some "fid", name := some "doc.txt", mimeType := some "text/plain",
    sha256Checksum := none, size := some 5, trashed := some false }

/-- Model of `PathBuf::parent` in the segment representation: `none` for the empty
(root) path, otherwise the path without its last segment. -/
def pparent (p : Path) : Option Path :=
  match p with
  | [] => none
  | _ :: _ => some p.dropLast

/-- Model of `GDriveRepo::copy_file` (`gdrive.rs:489-519`).  The parent and
file-name extractions and the two path-index lookups all go through
`Option::unwrap` (`gdrive.rs:490-496`) and hence panic when they fail;
`queryResult` is the `files` field returned by the single name-lookup
network call (`gdrive.rs:498-503`); `files.files.remove(0)` panics on an
empty vector (`gdrive.rs:511`); `copyResult` is the outcome of the
`files_copy` network call (`gdrive.rs:513-516`). -/
def gdriveCopyFile (dirs : List (Path × String)) (source dest : Path)
    (queryResult : List GFile) (copyResult : Except RtError GFile) :
    Except RtError Unit := do
  let sdir ← unwrapO (pparent source)
  let _sdirId ← unwrapO (dirs.lookup sdir)
  let _sname ← unwrapO source.getLast?
  let ddir ← unwrapO (pparent dest)
  let _ddirId ← unwrapO (dirs.lookup ddir)
  let _dname ← unwrapO dest.getLast?
  match queryResult with
  | [] => .error (.panic "removal index (is 0) should be < len (is 0)")
  | first :: _ => do
    let _fid ← unwrapO first.id
    let _ ← copyResult
    return ()

/-- Model of `LocalRepo::copy_file` (`repo.rs:99-104`): `std::fs::copy` of
`base.join(source)` to `base.join(dest)`.  The filesystem is an
association list from absolute paths to file contents; `std::fs::copy`
returns a `NotFound` I/O error — propagated with `?` as an error value —
when the source file does not exist, and otherwise overwrites the
destination with the source's content. -/
def localCopyFile (base : Path) (fs : List (Path × String))
    (source dest : Path) : Except RtError (List (Path × String)) :=
  match fs.lookup (base ++ source) with
  | none => .error (.err "No such file or directory")
  | some content => .ok ((base ++ dest, content) :: fs)

/-- A folder object of the construction listing (fields `id, size, name,
parents`, `gdrive.rs:329`): `parent` is `parents.first().unwrap()`
(`gdrive.rs:341`). -/
structure Folder where
  id : String
  name : String
  parent : String
deriving DecidableEq, Repr

/-- The folder set `GDriveRepo::new` actually works from: the single
`files_list` response, i.e. the first page of the paginated listing
(`gdrive.rs:327-332` issues one `call` and never chains
`next_page_token`). -/
def newIndexFolders (pages : List (List Folder)) : List Folder :=
  pages.headD []

/-- The `children` map (`gdrive.rs:334,344-346`): ids of the folders whose
(first) parent is `p`, in listing order. -/
def childrenOf (folders : List Folder) (p : String) : List String :=
  (folders.filter (fun f => f.parent == p)).map Folder.id

/-- The `names` map (`gdrive.rs:336,349`): the name recorded for an id
(exact when ids are distinct, as the map insertion then never
overwrites). -/
def nameOf (folders : List Folder) (id : String) : String :=
  match folders.find? (fun f => f.id == id) with
  | some f => f.name
  | none => ""

/-- The `parents` map (`gdrive.rs:335,348`). -/
def parentOf (folders : List Folder) (id : String) : String :=
  match folders.find? (fun f => f.id == id) with
  | some f => f.parent
  | none => ""

/-- Whether an id denotes one of the fetched folder objects. -/
def isFolderId (folders : List Folder) (id : String) : Bool :=
  (folders.find? (fun f => f.id == id)).isSome

/-- Model of `add_child` (`gdrive.rs:356-375`): skip ids already present, read the
parent's path (the source unwraps it — in every call context of the code
the parent was just inserted, so the `none` arm is unreachable), insert
`parent_path / name` and recurse into the children.  The source recursion
is unbounded and terminates because each productive call inserts a fresh
id; `fuel` (instantiated with `folders.length` by `buildPaths`, enough
for every parent-chain of distinct ids) makes it structural. -/
def addChild (folders : List Folder) :
    Nat → String → String → List (String × Path) → List (String × Path)
  | 0, _, _, paths => paths
  | fuel + 1, id, parent, paths =>
    if (paths.lookup id).isSome then paths
    else
      match paths.lookup parent with
      | none => paths
      | some par =>
        (childrenOf folders id).foldl
          (fun ps c => addChild folders fuel c id ps)
          ((id, par ++ [nameOf folders id]) :: paths)

/-- Path resolution of `GDriveRepo::new` (`gdrive.rs:352-380`): seed the
root path, then run `add_child` on each child of the root. -/
def buildPaths (folders : List Folder) (rootId : String) :
    List (String × Path) :=
  (childrenOf folders rootId).foldl
    (fun ps c => addChild folders folders.length c rootId ps)
    [(rootId, [])]

/-- The path index constructed by `GDriveRepo::new` from the remote
paginated folder listing. -/
def newIndexPaths (pages : List (List Folder)) (rootId : String) :
    List (String × Path) :=
  buildPaths (newIndexFolders pages) rootId

/-- The ancestor of `d` reached by following parent links `n` times. -/
def chainAncestor (folders : List Folder) (d : String) : Nat → String
  | 0 => d
  | n + 1 => parentOf folders (chainAncestor folders d n)

/-- Reachability: `d` is reachable from `y` through the parent-link graph at depth `n`:
the `n`-th ancestor of `d` is `y` and every nearer ancestor (including
`d` itself when `n > 0`) is one of the fetched folder objects. -/
def Desc (folders : List Folder) (y d : String) (n : Nat) : Prop :=
  chainAncestor folders d n = y ∧
    ∀ k < n, isFolderId folders (chainAncestor folders d k) = true

/-- The canonical path of a directory at depth `n`: the names along its
parent chain, root-to-leaf. -/
def chainNames (folders : List Folder) (d : String) : Nat → Path
  | 0 => []
  | n + 1 => chainNames folders (parentOf folders d) n ++ [nameOf folders d]

/-- C5 counterexample, part one input: the folder listing spans two pages,
`a` on the first and `b` on the second, both directly below the root. -/
def c5Pages : List (List Folder) :=
  [[⟨"ida", "a", "root"⟩], [⟨"idb", "b", "root"⟩]]

/-- C5 counterexample, part two input: a tree in which two distinct
directories below the root share the name `x`. -/
def c5Twins : List Folder :=
  [⟨"id1", "x", "root"⟩, ⟨"id2", "x", "root"⟩]

/-- Every entry of a `paths` map is canonical: its key is reachable from
the root and its value is the key's canonical path. -/
def Canon (folders : List Folder) (rootId : String)
    (ps : List (String × Path)) : Prop :=
  ∀ k q, ps.lookup k = some q →
    ∃ m, Desc folders rootId k m ∧ q = chainNames folders k m

/-! ## Data model (`src/repo.rs` lines 7-31) -/

/-! ## The sync engine (`src/repo.rs` lines 114-148)

`sync` takes two `Repo`s and calls `list` on each root; every further
backend call it would make is recorded in an operation trace.  The repos
are modelled by the results their `list(".")` calls return. -/

/-- The per-entry loop issues no operation whatever the entries are. -/
theorem entryOps_eq_nil (dsts : List Entry) (e : Entry) :
    entryOps dsts e = [] := by
  cases e with
  | dir i n => rfl
  | file i n s z =>
    simp only [entryOps]
    split <;> rfl

/-- The folded loop over the sorted source entries issues no operation. -/
theorem foldr_entryOps_eq_nil (dsts : List Entry) (l : List Entry) :
    l.foldr (fun e acc => entryOps dsts e ++ acc) [] = [] := by
  induction l with
  | nil => rfl
  | cons e l ih => simp [List.foldr, entryOps_eq_nil, ih]

/-- The operation trace of `sync`, whatever the two listings return,
consists only of root `list` calls. -/
theorem sync_ops_only_root_lists (srcRes dstRes : Except RtError (List Entry)) :
    ∀ op ∈ (sync srcRes dstRes).1,
      op = .list .src syncRoot ∨ op = .list .dst syncRoot := by
  intro op hop
  cases srcRes with
  | error e => simp [sync] at hop; simp [hop]
  | ok srcs =>
    cases dstRes with
    | error e =>
      simp [sync] at hop
      rcases hop with h | h <;> simp [h]
    | ok dsts =>
      simp only [sync] at hop
      rw [foldr_entryOps_eq_nil dsts] at hop
      simp at hop
      rcases hop with h | h <;> simp [h]

/-- C10: for every pair of listing results, the operation trace of `sync`
contains no `create_dir`, `write_file`, `copy_file` or `delete` on either
side; every operation it issues is a `list` of the root directory of one
of the two sides, so both backend states are left unchanged. -/
theorem sync_is_mutation_free (srcRes dstRes : Except RtError (List Entry))
    (op : Op) (hop : op ∈ (sync srcRes dstRes).1) :
    (op = .list .src syncRoot ∨ op = .list .dst syncRoot) ∧
    (∀ s p, op ≠ .createDir s p) ∧
    (∀ s p, op ≠ .writeFile s p) ∧
    (∀ s p q, op ≠ .copyFile s p q) ∧
    (∀ s p, op ≠ .delete s p) := by
  have h := sync_ops_only_root_lists srcRes dstRes op hop
  refine ⟨h, ?_, ?_, ?_, ?_⟩ <;>
    · intros
      rcases h with h | h <;> simp [h]

/-- Witness for C10 at a concrete input: a one-entry source listing and an
empty destination listing; the head of the trace is the source root list. -/
theorem sync_is_mutation_free_witness :
    (Op.list .src syncRoot = .list .src syncRoot ∨
      Op.list .src syncRoot = .list .dst syncRoot) ∧
    (∀ s p, Op.list .src syncRoot ≠ .createDir s p) ∧
    (∀ s p, Op.list .src syncRoot ≠ .writeFile s p) ∧
    (∀ s p q, Op.list .src syncRoot ≠ .copyFile s p q) ∧
    (∀ s p, Op.list .src syncRoot ≠ .delete s p) :=
  sync_is_mutation_free (.ok [.dir "id-a" "a"]) (.ok [])
    (.list .src syncRoot) (by decide)

/-- C1 (behaviour of the code at the spec's Scenario A): with a source
root listing holding the directory `a` and an empty destination listing,
`sync` issues exactly the two root `list` calls and returns `Ok(())` — it
creates no directory on the destination, writes no file, and never
recurses into `a` (so `/a/b.txt` is never even observed). -/
theorem sync_scenarioA_stub :
    sync (.ok [.dir "local/a" "a"]) (.ok []) =
      ([.list .src syncRoot, .list .dst syncRoot], .ok ()) := by
  simp [sync, entryOps]

/-- C7: for a source file and a destination file of the same name with
equal content hash, the loop's skip decision fires, it is computed from
the content hashes alone (the sizes `fz`, `gz` are unconstrained and may
differ), and the trace of `sync` contains no write or copy operation for
any path. -/
theorem sync_hash_equal_skip (srcs dsts : List Entry)
    (fi fn fs : String) (fz : Nat) (gi gn gs : String) (gz : Nat)
    (hf : Entry.file fi fn fs fz ∈ srcs)
    (hg : dstMap dsts fn = some (.file gi gn gs gz))
    (hash_eq : fs = gs) :
    fileSkip fs (dstMap dsts fn) = true ∧
    (∀ op ∈ (sync (.ok srcs) (.ok dsts)).1,
      (∀ s p, op ≠ .writeFile s p) ∧ (∀ s p q, op ≠ .copyFile s p q)) := by
  constructor
  · rw [hg]
    simp [fileSkip, hash_eq]
  · intro op hop
    have h := sync_ops_only_root_lists (.ok srcs) (.ok dsts) op hop
    constructor <;>
      · intros
        rcases h with h | h <;> simp [h]

/-- Witness for C7: source file `b.txt` (hash `H1`, size 10) and
destination file `b.txt` (hash `H1`, size 999) — sizes differ, hashes
agree; the skip fires and the trace has no write or copy. -/
theorem sync_hash_equal_skip_witness :
    fileSkip "H1" (dstMap [.file "id2" "b.txt" "H1" 999] "b.txt") = true ∧
    (∀ op ∈ (sync (.ok [.file "id1" "b.txt" "H1" 10])
        (.ok [.file "id2" "b.txt" "H1" 999])).1,
      (∀ s p, op ≠ .writeFile s p) ∧ (∀ s p q, op ≠ .copyFile s p q)) :=
  sync_hash_equal_skip [.file "id1" "b.txt" "H1" 10]
    [.file "id2" "b.txt" "H1" 999] "id1" "b.txt" "H1" 10 "id2" "b.txt" "H1" 999
    (by decide) (by decide) rfl

/-! ## The authenticated call executor (`src/gdrive.rs` lines 152-186)

`RequestBuilder::call` runs a loop: each iteration obtains a token from the
authorizer (`auth.token(client).await?`), sends the HTTP request
(`request.send().await?`) and inspects the status.  The environment is
modelled by three arguments: the per-iteration results of `auth.token`,
the result of the single possible `auth.force_refresh`, and the
per-iteration results of sending the request.  JSON deserialization of a
successful response (`response.json().await?`) is abstracted into the
response body. -/

/-- Unfold lemma for `callLoop` at fuel 0 (the unreachable arm). -/
theorem callLoop_zero (tokens : Nat → Except RtError String)
    (rr : Except RtError String) (responses : Nat → Except RtError HttpResponse)
    (fr : Bool) (reqIdx refreshes : Nat) :
    callLoop tokens rr responses 0 fr reqIdx refreshes =
      (⟨reqIdx, refreshes⟩, .error (.panic "unreachable: loop fuel exhausted")) := rfl

/-- Unfold lemma for `callLoop` at positive fuel: one loop iteration. -/
theorem callLoop_succ (tokens : Nat → Except RtError String)
    (rr : Except RtError String) (responses : Nat → Except RtError HttpResponse)
    (fuel : Nat) (fr : Bool) (reqIdx refreshes : Nat) :
    callLoop tokens rr responses (fuel + 1) fr reqIdx refreshes =
      (match tokens reqIdx with
      | .error e => (⟨reqIdx, refreshes⟩, .error e)
      | .ok _token =>
        match responses reqIdx with
        | .error e => (⟨reqIdx + 1, refreshes⟩, .error e)
        | .ok resp =>
          if resp.status == 401 && !fr then
            match rr with
            | .error e => (⟨reqIdx + 1, refreshes + 1⟩, .error e)
            | .ok _newTok =>
              callLoop tokens rr responses fuel true (reqIdx + 1) (refreshes + 1)
          else if fr then
            (⟨reqIdx + 1, refreshes⟩,
              .error (.err "Probably invalid account, investigate"))
          else
            (⟨reqIdx + 1, refreshes⟩, .ok resp.body)) := rfl

/-- With the flag already set, the loop stops on the current iteration
whatever the environment answers: at most one more request is sent, no
refresh is issued, and the outcome is an error (either a propagated
token/send failure or the `bail!`). -/
theorem callLoop_true_stops (tokens : Nat → Except RtError String)
    (refreshResult : Except RtError String)
    (responses : Nat → Except RtError HttpResponse) (fuel reqIdx refreshes : Nat) :
    (callLoop tokens refreshResult responses fuel true reqIdx refreshes).1.requests ≤ reqIdx + 1 ∧
    (callLoop tokens refreshResult responses fuel true reqIdx refreshes).1.refreshes = refreshes ∧
    ∃ e, (callLoop tokens refreshResult responses fuel true reqIdx refreshes).2 = .error e := by
  cases fuel with
  | zero =>
    rw [callLoop_zero]
    exact ⟨show reqIdx ≤ reqIdx + 1 by omega, rfl,
      .panic "unreachable: loop fuel exhausted", rfl⟩
  | succ f =>
    cases htok : tokens reqIdx with
    | error e =>
      rw [callLoop_succ, htok]
      exact ⟨show reqIdx ≤ reqIdx + 1 by omega, rfl, e, rfl⟩
    | ok t =>
      cases hresp : responses reqIdx with
      | error e =>
        rw [callLoop_succ, htok, hresp]
        exact ⟨show reqIdx + 1 ≤ reqIdx + 1 by omega, rfl, e, rfl⟩
      | ok resp =>
        rw [callLoop_succ, htok, hresp]
        simp only [Bool.not_true, Bool.and_false]
        exact ⟨show reqIdx + 1 ≤ reqIdx + 1 by omega, rfl,
          .err "Probably invalid account, investigate", rfl⟩

/-- Whatever the environment answers, a run of the loop started with the
flag unset sends at most two requests and issues at most one refresh. -/
theorem callLoop_false_bounds (tokens : Nat → Except RtError String)
    (refreshResult : Except RtError String)
    (responses : Nat → Except RtError HttpResponse) (fuel reqIdx refreshes : Nat) :
    (callLoop tokens refreshResult responses fuel false reqIdx refreshes).1.requests ≤ reqIdx + 2 ∧
    (callLoop tokens refreshResult responses fuel false reqIdx refreshes).1.refreshes ≤ refreshes + 1 := by
  cases fuel with
  | zero =>
    rw [callLoop_zero]
    exact ⟨show reqIdx ≤ reqIdx + 2 by omega, show refreshes ≤ refreshes + 1 by omega⟩
  | succ f =>
    cases htok : tokens reqIdx with
    | error e =>
      rw [callLoop_succ, htok]
      exact ⟨show reqIdx ≤ reqIdx + 2 by omega, show refreshes ≤ refreshes + 1 by omega⟩
    | ok t =>
      cases hresp : responses reqIdx with
      | error e =>
        rw [callLoop_succ, htok, hresp]
        exact ⟨show reqIdx + 1 ≤ reqIdx + 2 by omega,
          show refreshes ≤ refreshes + 1 by omega⟩
      | ok resp =>
        cases hst : resp.status == 401 with
        | false =>
          rw [callLoop_succ, htok, hresp]
          refine ⟨?_, ?_⟩ <;> (simp [hst] <;> omega)
        | true =>
          cases hrr : refreshResult with
          | error e2 =>
            rw [callLoop_succ, htok, hresp]
            refine ⟨?_, ?_⟩ <;> (simp [hst] <;> omega)
          | ok tr =>
            rw [callLoop_succ, htok, hresp]
            have h2 := callLoop_true_stops tokens (.ok tr) responses f (reqIdx + 1) (refreshes + 1)
            refine ⟨?_, ?_⟩ <;> (simp [hst] <;> omega)

/-- First loop iteration in the 401 scenario: flag unset, token obtained,
request sent and answered 401, forced refresh succeeds — the loop
continues with the flag set and both counters bumped. -/
theorem callLoop_first_401 (tokens : Nat → Except RtError String)
    (refreshResult : Except RtError String)
    (responses : Nat → Except RtError HttpResponse) (fuel reqIdx refreshes : Nat)
    (t tr : String) (resp : HttpResponse)
    (ht : tokens reqIdx = .ok t) (hr : responses reqIdx = .ok resp)
    (hs : resp.status = 401) (htr : refreshResult = .ok tr) :
    callLoop tokens refreshResult responses (fuel + 1) false reqIdx refreshes =
      callLoop tokens refreshResult responses fuel true (reqIdx + 1) (refreshes + 1) := by
  rw [callLoop_succ, ht, hr, htr]
  simp [hs]

/-- Iteration with the flag set, when the token is obtained and the
request is answered (with any status): the `bail!` of `gdrive.rs:181`
fires. -/
theorem callLoop_refreshed_bails (tokens : Nat → Except RtError String)
    (refreshResult : Except RtError String)
    (responses : Nat → Except RtError HttpResponse) (fuel reqIdx refreshes : Nat)
    (t : String) (resp : HttpResponse)
    (ht : tokens reqIdx = .ok t) (hr : responses reqIdx = .ok resp) :
    callLoop tokens refreshResult responses (fuel + 1) true reqIdx refreshes =
      (⟨reqIdx + 1, refreshes⟩,
        .error (.err "Probably invalid account, investigate")) := by
  rw [callLoop_succ, ht, hr]
  simp

/-- C4: per logical call, at most two requests are sent and at most one
forced refresh is issued — whatever the environment answers; and in the
scenario where the first request comes back 401, the refresh succeeds,
and the retried request comes back 401 again, the call fails with the
permanent-invalidity error after exactly two requests and one refresh
(no third request is sent). -/
theorem call_bounded_retry :
    (∀ tokens refreshResult responses,
      (call tokens refreshResult responses).1.requests ≤ 2 ∧
      (call tokens refreshResult responses).1.refreshes ≤ 1) ∧
    (∀ tokens refreshResult responses t0 t1 tr r0 r1,
      tokens 0 = .ok t0 → tokens 1 = .ok t1 → refreshResult = .ok tr →
      responses 0 = .ok r0 → r0.status = 401 →
      responses 1 = .ok r1 → r1.status = 401 →
      call tokens refreshResult responses =
        (⟨2, 1⟩, .error (.err "Probably invalid account, investigate"))) := by
  constructor
  · intro tokens refreshResult responses
    unfold call
    have h : (callLoop tokens refreshResult responses 2 false 0 0).1.requests ≤ 0 + 2 ∧
        (callLoop tokens refreshResult responses 2 false 0 0).1.refreshes ≤ 0 + 1 :=
      callLoop_false_bounds tokens refreshResult responses 2 0 0
    exact ⟨by omega, by omega⟩
  · intro tokens refreshResult responses t0 t1 tr r0 r1 ht0 ht1 htr hr0 hs0 hr1 hs1
    show callLoop tokens refreshResult responses (1 + 1) false 0 0 = _
    rw [callLoop_first_401 tokens refreshResult responses 1 0 0 t0 tr r0 ht0 hr0 hs0 htr]
    show callLoop tokens refreshResult responses (0 + 1) true 1 1 = _
    rw [callLoop_refreshed_bails tokens refreshResult responses 0 1 1 t1 r1 ht1 hr1]

/-- Witness for C4 in the double-401 scenario: both requests answered 401,
refresh succeeds — the call fails permanently after two requests and one
refresh. -/
theorem call_bounded_retry_witness :
    ((call (fun _ => .ok "tok") (.ok "tok2") (fun _ => .ok ⟨401, "denied"⟩)).1.requests ≤ 2 ∧
      (call (fun _ => .ok "tok") (.ok "tok2") (fun _ => .ok ⟨401, "denied"⟩)).1.refreshes ≤ 1) ∧
    call (fun _ => .ok "tok") (.ok "tok2") (fun _ => .ok ⟨401, "denied"⟩) =
      (⟨2, 1⟩, .error (.err "Probably invalid account, investigate")) :=
  ⟨call_bounded_retry.1 (fun _ => .ok "tok") (.ok "tok2") (fun _ => .ok ⟨401, "denied"⟩),
    call_bounded_retry.2 (fun _ => .ok "tok") (.ok "tok2") (fun _ => .ok ⟨401, "denied"⟩)
      "tok" "tok" "tok2" ⟨401, "denied"⟩ ⟨401, "denied"⟩
      rfl rfl rfl rfl rfl rfl rfl⟩

/-- C2 (behaviour of the code when the retry succeeds): first response
401, forced refresh succeeds, retried request answers 200 with a payload —
the call nevertheless fails with `bail!("Probably invalid account,
investigate")`, because the `else if force_refreshed` branch
(`gdrive.rs:180-181`) fires for every response once the flag is set,
including a successful one. -/
theorem call_fails_after_successful_retry :
    call (fun _ => .ok "tok") (.ok "tok2")
        (fun i => if i = 0 then .ok ⟨401, "denied"⟩ else .ok ⟨200, "payload"⟩) =
      (⟨2, 1⟩, .error (.err "Probably invalid account, investigate")) := rfl

/-! ## The credential cache / authorizer (`src/main.rs` lines 106-147)

`GDriveAuthorizer` keeps named credentials in the on-disk store read by
`get::<Drives>(DRIVES)` and written by `set`; the store is modelled as an
association list passed in and returned.  `force_refresh` is modelled
after acquiring `self.lock` (the serializing mutex at `main.rs:114`):
the function body between lock acquisition and release.  The result of
the single `crate::auth::refresh` network call is an argument; the first
component of the result counts how many refresh network calls the body
issues. -/

/-- C3 counterexample: at time 0 the stored credential for `d` is still
valid until 100 (so a caller that waited on the lock while another caller
refreshed would, per the claim, observe it and issue no refresh call),
yet `force_refresh` issues a refresh network call anyway: its body
contains no expiry re-check. -/
theorem forceRefresh_ignores_fresh_credential :
    (([("d", ⟨"cached", 100, "rsec"⟩)] : Drives).lookup "d").map DriveInfo.accessUntil
        = some 100 ∧
    (0 : Nat) < 100 ∧
    (forceRefresh "d" [("d", ⟨"cached", 100, "rsec"⟩)]
        (.ok ⟨200, "fresh"⟩)).1 = 1 := by
  refine ⟨rfl, by omega, rfl⟩

/-- C3 amended: `force_refresh`, once past the lock, performs no expiry
re-check: for every store containing the named drive and every refresh
outcome it issues exactly one refresh network call — in particular a
caller that waited on the lock while another caller already refreshed
still issues its own refresh call (refreshes are serialized by the lock,
not collapsed into one flight).  On success the new token is returned and
the store entry is overwritten with the fresh token and expiry. -/
theorem forceRefresh_always_one_network_call (name : String) (drives : Drives)
    (d : DriveInfo) (refreshResult : Except RtError RefreshOutcome)
    (h : drives.lookup name = some d) :
    (forceRefresh name drives refreshResult).1 = 1 ∧
    (∀ r, refreshResult = .ok r →
      (forceRefresh name drives refreshResult).2.2 = .ok r.accessToken ∧
      (forceRefresh name drives refreshResult).2.1 =
        updateDrive drives name
          { d with accessToken := r.accessToken, accessUntil := r.validUntil }) := by
  unfold forceRefresh
  rw [h]
  cases refreshResult with
  | error e => exact ⟨rfl, fun r hr => by cases hr⟩
  | ok r => exact ⟨rfl, fun r' hr => by cases hr; exact ⟨rfl, rfl⟩⟩

/-- Witness for the amended C3: concrete store, fresh credential and a
successful refresh outcome. -/
theorem forceRefresh_always_one_network_call_witness :
    (forceRefresh "d" [("d", ⟨"cached", 100, "rsec"⟩)] (.ok ⟨200, "fresh"⟩)).1 = 1 ∧
    (∀ r, (Except.ok (⟨200, "fresh"⟩ : RefreshOutcome) :
        Except RtError RefreshOutcome) = .ok r →
      (forceRefresh "d" [("d", ⟨"cached", 100, "rsec"⟩)] (.ok ⟨200, "fresh"⟩)).2.2 =
        .ok r.accessToken ∧
      (forceRefresh "d" [("d", ⟨"cached", 100, "rsec"⟩)] (.ok ⟨200, "fresh"⟩)).2.1 =
        updateDrive [("d", ⟨"cached", 100, "rsec"⟩)] "d"
          { (⟨"cached", 100, "rsec"⟩ : DriveInfo) with
              accessToken := r.accessToken, accessUntil := r.validUntil }) :=
  forceRefresh_always_one_network_call "d" [("d", ⟨"cached", 100, "rsec"⟩)]
    ⟨"cached", 100, "rsec"⟩ (.ok ⟨200, "fresh"⟩) rfl

/-! ## The remote backend listing (`src/gdrive.rs` lines 397-447)

`GDriveRepo::list` resolves the directory id through the path index
(`self.dirs`), then loops fetching pages of the remote listing with
`page_size(1000)`, chaining `next_page_token`, and finally converts every
fetched file object into an `Entry`.  The remote paginated listing is
modelled as the list of its pages: page `i` carries a continuation cursor
exactly when page `i + 1` exists, so the loop consumes the pages in
order and stops after the last.  The path index is an association list
from (normalized, root-relative) paths to object ids; `PathBuf::from("/")
.join(path)` normalizes to `path` itself in the segment model. -/

/-- Running `mapM toEntry` over a list in which every conversion succeeds
returns a list of the same length. -/
theorem mapM_toEntry_length (l : List GFile)
    (h : ∀ f ∈ l, ∃ e, toEntry f = .ok e) :
    ∃ es : List Entry, l.mapM toEntry = .ok es ∧ es.length = l.length := by
  induction l with
  | nil => exact ⟨[], rfl, rfl⟩
  | cons f l ih =>
    obtain ⟨e, he⟩ := h f (List.mem_cons_self f l)
    obtain ⟨es, hes, hlen⟩ := ih (fun g hg => h g (List.mem_cons_of_mem f hg))
    refine ⟨e :: es, ?_, by simp [hlen]⟩
    rw [List.mapM_cons, he, hes]
    rfl

/-- The length of the aggregation is the sum of the page lengths. -/
theorem fetchAllPages_length (pages : List (List GFile)) :
    (fetchAllPages pages).length = (pages.map List.length).sum := by
  induction pages with
  | nil => rfl
  | cons p rest ih => simp [fetchAllPages, ih]

/-- Membership in the aggregation is membership in one of the pages. -/
theorem mem_fetchAllPages {f : GFile} {pages : List (List GFile)} :
    f ∈ fetchAllPages pages ↔ ∃ p ∈ pages, f ∈ p := by
  induction pages with
  | nil => simp [fetchAllPages]
  | cons p rest ih => simp [fetchAllPages, ih]

/-- C6: when the directory is present in the path index and every fetched
file object converts (all mandatory fields present), `list` returns one
logical result aggregating every page: its length is the sum of the page
sizes. -/
theorem gdriveList_aggregates_pages (dirs : List (Path × String))
    (path : Path) (dirId : String) (pages : List (List GFile))
    (hdir : dirs.lookup path = some dirId)
    (hok : ∀ f ∈ fetchAllPages pages, ∃ e, toEntry f = .ok e) :
    ∃ es : List Entry, gdriveList dirs path pages = .ok es ∧
      es.length = (pages.map List.length).sum := by
  obtain ⟨es, hes, hlen⟩ := mapM_toEntry_length (fetchAllPages pages) hok
  refine ⟨es, ?_, by rw [hlen, fetchAllPages_length]⟩
  rw [gdriveList, hdir]
  exact hes

/-- Witness for C6 at the spec's Scenario D: 3 pages of 1000 entries each
aggregate to exactly 3000 entries. -/
theorem gdriveList_aggregates_pages_witness :
    ∃ es : List Entry,
      gdriveList [([], "rootId")] []
          (List.replicate 3 (List.replicate 1000 witFile)) = .ok es ∧
      es.length = ((List.replicate 3 (List.replicate 1000 witFile)).map List.length).sum := by
  refine gdriveList_aggregates_pages [([], "rootId")] [] "rootId"
    (List.replicate 3 (List.replicate 1000 witFile)) rfl ?_
  intro f hf
  have hfw : f = witFile := by
    rw [mem_fetchAllPages] at hf
    obtain ⟨p, hp, hfp⟩ := hf
    rw [List.eq_of_mem_replicate hp] at hfp
    exact List.eq_of_mem_replicate hfp
  exact ⟨.file "fid" "f.bin" "deadbeef" 4096, by rw [hfw]; rfl⟩

/-- Every failure of `toEntry` is a panic (`Option::unwrap`): the
conversion never produces an error value returned to the caller. -/
theorem toEntry_error_is_panic (f : GFile) (e : RtError)
    (h : toEntry f = .error e) : ∃ m, e = .panic m := by
  unfold toEntry at h
  by_cases hm : f.mimeType == some folderMime
  · rw [if_pos hm] at h
    cases hid : f.id with
    | none =>
      rw [hid] at h
      refine ⟨"called Option::unwrap on a None value", ?_⟩
      have h2 : (Except.error (RtError.panic "called Option::unwrap on a None value") :
          Except RtError Entry) = .error e := h
      injection h2 with h3
      exact h3.symm
    | some i =>
      rw [hid] at h
      cases hn : f.name with
      | none =>
        rw [hn] at h
        refine ⟨"called Option::unwrap on a None value", ?_⟩
        have h2 : (Except.error (RtError.panic "called Option::unwrap on a None value") :
            Except RtError Entry) = .error e := h
        injection h2 with h3
        exact h3.symm
      | some n =>
        rw [hn] at h
        have h2 : (Except.ok (Entry.dir i n) : Except RtError Entry) = .error e := h
        exact Except.noConfusion h2
  · rw [if_neg hm] at h
    cases hid : f.id with
    | none =>
      rw [hid] at h
      refine ⟨"called Option::unwrap on a None value", ?_⟩
      have h2 : (Except.error (RtError.panic "called Option::unwrap on a None value") :
          Except RtError Entry) = .error e := h
      injection h2 with h3
      exact h3.symm
    | some i =>
      rw [hid] at h
      cases hn : f.name with
      | none =>
        rw [hn] at h
        refine ⟨"called Option::unwrap on a None value", ?_⟩
        have h2 : (Except.error (RtError.panic "called Option::unwrap on a None value") :
            Except RtError Entry) = .error e := h
        injection h2 with h3
        exact h3.symm
      | some n =>
        rw [hn] at h
        cases hs : f.sha256Checksum with
        | none =>
          rw [hs] at h
          refine ⟨"called Option::unwrap on a None value", ?_⟩
          have h2 : (Except.error (RtError.panic "called Option::unwrap on a None value") :
              Except RtError Entry) = .error e := h
          injection h2 with h3
          exact h3.symm
        | some sc =>
          rw [hs] at h
          cases hz : f.size with
          | none =>
            rw [hz] at h
            refine ⟨"called Option::unwrap on a None value", ?_⟩
            have h2 : (Except.error (RtError.panic "called Option::unwrap on a None value") :
                Except RtError Entry) = .error e := h
            injection h2 with h3
            exact h3.symm
          | some z =>
            rw [hz] at h
            have h2 : (Except.ok (Entry.file i n sc z) : Except RtError Entry) = .error e := h
            exact Except.noConfusion h2

/-- A non-folder file object lacking the `sha256Checksum` field never
converts: `toEntry` fails on it (at the checksum unwrap, or earlier at a
missing `id`/`name`). -/
theorem toEntry_missing_hash_fails (f : GFile)
    (hm : (f.mimeType == some folderMime) = false)
    (hs : f.sha256Checksum = none) : ∃ e, toEntry f = .error e := by
  unfold toEntry
  rw [hm]
  simp only [Bool.false_eq_true, if_false]
  cases hid : f.id with
  | none => exact ⟨.panic "called Option::unwrap on a None value", rfl⟩
  | some i =>
    cases hn : f.name with
    | none => exact ⟨.panic "called Option::unwrap on a None value", rfl⟩
    | some n =>
      rw [hs]
      exact ⟨.panic "called Option::unwrap on a None value", rfl⟩

/-- If one element of the list fails to convert, the whole `mapM` fails. -/
theorem mapM_toEntry_error_of_mem (l : List GFile) (f : GFile) (e : RtError)
    (hf : f ∈ l) (he : toEntry f = .error e) :
    ∃ e2, l.mapM toEntry = .error e2 := by
  induction l with
  | nil => cases hf
  | cons g t ih =>
    cases hg : toEntry g with
    | error e3 => exact ⟨e3, by rw [List.mapM_cons, hg]; rfl⟩
    | ok b =>
      rcases List.mem_cons.mp hf with hfg | hft
      · rw [hfg] at he
        rw [he] at hg
        cases hg
      · obtain ⟨e2, he2⟩ := ih hft
        exact ⟨e2, by rw [List.mapM_cons, hg, he2]; rfl⟩

/-- Every failure of `mapM toEntry` is the failure of converting one of
the list's elements. -/
theorem mapM_toEntry_error_source (l : List GFile) (e : RtError)
    (h : l.mapM toEntry = .error e) : ∃ f ∈ l, toEntry f = .error e := by
  induction l with
  | nil =>
    rw [List.mapM_nil] at h
    have h2 : (Except.ok ([] : List Entry) : Except RtError (List Entry)) = .error e := h
    exact Except.noConfusion h2
  | cons g t ih =>
    rw [List.mapM_cons] at h
    cases hg : toEntry g with
    | error e3 =>
      rw [hg] at h
      have h2 : (Except.error e3 : Except RtError (List Entry)) = .error e := h
      injection h2 with h3
      exact ⟨g, List.mem_cons_self g t, h3 ▸ hg⟩
    | ok b =>
      rw [hg] at h
      cases hrest : t.mapM toEntry with
      | error e3 =>
        rw [hrest] at h
        have h2 : (Except.error e3 : Except RtError (List Entry)) = .error e := h
        injection h2 with h3
        obtain ⟨f, hfm, hfe⟩ := ih (h3 ▸ hrest)
        exact ⟨f, List.mem_cons_of_mem g hfm, hfe⟩
      | ok bs =>
        rw [hrest] at h
        have h2 : (Except.ok (b :: bs) : Except RtError (List Entry)) = .error e := h
        exact Except.noConfusion h2

/-- C9 counterexample: a listing whose single page holds `hashlessFile`
makes `list` *panic* (the `unwrap` at `gdrive.rs:441`); the outcome is a
crash, not an error value returned to the caller as the claim states. -/
theorem gdriveList_missing_hash_crashes :
    isCallerError (gdriveList [([], "rootId")] [] [[hashlessFile]]) = false ∧
    gdriveList [([], "rootId")] [] [[hashlessFile]] =
      .error (.panic "called Option::unwrap on a None value") := ⟨rfl, rfl⟩

/-- C9 amended: when the directory resolves in the path index and the
fetched listing contains a non-folder entry lacking the content hash,
`list` panics (aborts through `Option::unwrap`): it never returns a
successful listing that silently omits the entry, and never returns an
error value to the caller. -/
theorem gdriveList_missing_hash_panics (dirs : List (Path × String))
    (path : Path) (dirId : String) (pages : List (List GFile)) (f : GFile)
    (hdir : dirs.lookup path = some dirId)
    (hf : f ∈ fetchAllPages pages)
    (hm : (f.mimeType == some folderMime) = false)
    (hs : f.sha256Checksum = none) :
    ∃ m, gdriveList dirs path pages = .error (.panic m) := by
  obtain ⟨e, he⟩ := toEntry_missing_hash_fails f hm hs
  obtain ⟨e2, he2⟩ := mapM_toEntry_error_of_mem (fetchAllPages pages) f e hf he
  obtain ⟨g, _, hge⟩ := mapM_toEntry_error_source (fetchAllPages pages) e2 he2
  obtain ⟨m, hme⟩ := toEntry_error_is_panic g e2 hge
  refine ⟨m, ?_⟩
  rw [gdriveList, hdir, he2, hme]

/-- Witness for the amended C9 at the counterexample input. -/
theorem gdriveList_missing_hash_panics_witness :
    ∃ m, gdriveList [([], "rootId")] [] [[hashlessFile]] = .error (.panic m) :=
  gdriveList_missing_hash_panics [([], "rootId")] [] "rootId" [[hashlessFile]]
    hashlessFile rfl (by simp [fetchAllPages, hashlessFile]) rfl rfl

/-- Evaluating `unwrapO` on a present value. -/
theorem unwrapO_some {α : Type} (a : α) : unwrapO (some a) = .ok a := rfl

/-- Evaluating `unwrapO` on a missing value: the `unwrap` panic. -/
theorem unwrapO_none {α : Type} :
    (unwrapO (none : Option α)) =
      (.error (.panic "called Option::unwrap on a None value") : Except RtError α) := rfl

/-- Monadic bind on a successful `Except` step. -/
theorem ok_bind {α β : Type} (a : α) (f : α → Except RtError β) :
    (Except.ok a >>= f) = f a := rfl

/-- Monadic bind on a failed `Except` step. -/
theorem error_bind {α β : Type} (e : RtError) (f : α → Except RtError β) :
    ((Except.error e : Except RtError α) >>= f) = .error e := rfl

/-! ## `copy_file` on both backends (`src/gdrive.rs` 489-519, `src/repo.rs` 99-104) -/

/-- C8 counterexample: both parent directories resolve in the path index
but the remote name lookup returns an empty result set — the remote
`copy_file` *panics* on `remove(0)` instead of returning the `NotFound`
error value the claim states. -/
theorem gdriveCopyFile_empty_result_crashes :
    isCallerError (gdriveCopyFile [(["a"], "ida"), (["b"], "idb")]
        ["a", "f.txt"] ["b", "g.txt"] [] (.ok witFile)) = false ∧
    gdriveCopyFile [(["a"], "ida"), (["b"], "idb")]
        ["a", "f.txt"] ["b", "g.txt"] [] (.ok witFile) =
      .error (.panic "removal index (is 0) should be < len (is 0)") := ⟨rfl, rfl⟩

/-- C8 amended: the local `copy_file` does return the `NotFound` error
value when the source file is absent; the remote `copy_file`, however,
panics (out-of-bounds `Vec::remove`) rather than returning an error when
the name lookup yields an empty result set, for every state in which the
two parent directories resolve in the path index. -/
theorem copyFile_missing_source_behaviour :
    (∀ (base : Path) (fs : List (Path × String)) (source dest : Path),
      fs.lookup (base ++ source) = none →
      localCopyFile base fs source dest = .error (.err "No such file or directory")) ∧
    (∀ (dirs : List (Path × String)) (source dest : Path)
        (sp dp : Path) (sId dId sn dn : String) (c : Except RtError GFile),
      pparent source = some sp → dirs.lookup sp = some sId →
      source.getLast? = some sn →
      pparent dest = some dp → dirs.lookup dp = some dId →
      dest.getLast? = some dn →
      gdriveCopyFile dirs source dest [] c =
        .error (.panic "removal index (is 0) should be < len (is 0)")) := by
  constructor
  · intro base fs source dest h
    rw [localCopyFile, h]
  · intro dirs source dest sp dp sId dId sn dn c h1 h2 h3 h4 h5 h6
    simp only [gdriveCopyFile, h1, h2, h3, h4, h5, h6, unwrapO_some, ok_bind]

/-- Witness for the amended C8 at concrete inputs on both conjuncts. -/
theorem copyFile_missing_source_behaviour_witness :
    localCopyFile ["base"] [] ["a", "f.txt"] ["b", "g.txt"] =
      .error (.err "No such file or directory") ∧
    gdriveCopyFile [(["a"], "ida"), (["b"], "idb")]
        ["a", "f.txt"] ["b", "g.txt"] [] (.ok witFile) =
      .error (.panic "removal index (is 0) should be < len (is 0)") :=
  ⟨copyFile_missing_source_behaviour.1 ["base"] [] ["a", "f.txt"] ["b", "g.txt"] rfl,
    copyFile_missing_source_behaviour.2 [(["a"], "ida"), (["b"], "idb")]
      ["a", "f.txt"] ["b", "g.txt"] ["a"] ["b"] "ida" "idb" "f.txt" "g.txt"
      (.ok witFile) rfl rfl rfl rfl rfl rfl⟩

/-! ## Path index construction (`src/gdrive.rs` lines 318-393)

`GDriveRepo::new` fetches the backend root id, then issues a *single*
`files_list` call for the folder objects (`gdrive.rs:327-332` — no
`page_token` loop, unlike `list`), builds the children/parents/names maps
and resolves paths top-down with the recursive `add_child`
(`gdrive.rs:356-379`).  The remote folder listing is again modelled as
pages; the single call returns the first page.  We reason about the
`paths` map (id ↦ path); the stored `dirs` index is its inversion
(`gdrive.rs:381-384`). -/

/-- C5 counterexample: (1) construction uses only the first page — the
directory `b`, reachable from the root in the complete two-page listing,
gets no path in the index; (2) even on a single-page tree, two distinct
sibling directories sharing a name collide on the same path. -/
theorem newIndex_incomplete_and_colliding :
    (Desc c5Pages.flatten "root" "idb" 1 ∧
      (newIndexPaths c5Pages "root").lookup "idb" = none) ∧
    ((buildPaths c5Twins "root").lookup "id1" = some ["x"] ∧
      (buildPaths c5Twins "root").lookup "id2" = some ["x"] ∧
      "id1" ≠ "id2") := by
  refine ⟨⟨⟨rfl, ?_⟩, rfl⟩, rfl, rfl, by decide⟩
  intro k hk
  interval_cases k
  rfl

section PathIndex

variable (folders : List Folder) (rootId : String)

/-- An id denotes a fetched folder exactly when it occurs among the
listed ids. -/
theorem isFolderId_iff_mem (x : String) :
    isFolderId folders x = true ↔ x ∈ folders.map Folder.id := by
  rw [isFolderId, List.find?_isSome, List.mem_map]
  constructor
  · rintro ⟨f, hf, hp⟩
    exact ⟨f, hf, beq_iff_eq.mp hp⟩
  · rintro ⟨f, hf, hfx⟩
    exact ⟨f, hf, beq_iff_eq.mpr hfx⟩

/-- With distinct ids, `find?` returns the unique record of a listed
folder. -/
theorem find?_id_of_mem (hN : (folders.map Folder.id).Nodup) (f : Folder)
    (hf : f ∈ folders) :
    folders.find? (fun g => g.id == f.id) = some f := by
  induction folders with
  | nil => cases hf
  | cons g t ih =>
    rw [List.map_cons, List.nodup_cons] at hN
    rcases List.mem_cons.mp hf with h | h
    · rw [h]
      exact List.find?_cons_of_pos t (beq_iff_eq.mpr rfl)
    · have hne : ¬ (g.id == f.id) = true := by
        intro habs
        exact hN.1 (beq_iff_eq.mp habs ▸ List.mem_map_of_mem Folder.id h)
      rw [List.find?_cons_of_neg t hne]
      exact ih hN.2 h

/-- With distinct ids, `parentOf` reads the recorded parent of a listed folder. -/
theorem parentOf_of_mem (hN : (folders.map Folder.id).Nodup) (f : Folder)
    (hf : f ∈ folders) : parentOf folders f.id = f.parent := by
  rw [parentOf, find?_id_of_mem folders hN f hf]

/-- With distinct ids, `nameOf` reads the recorded name of a listed folder. -/
theorem nameOf_of_mem (hN : (folders.map Folder.id).Nodup) (f : Folder)
    (hf : f ∈ folders) : nameOf folders f.id = f.name := by
  rw [nameOf, find?_id_of_mem folders hN f hf]

/-- Membership in a `children` list, in terms of the folder records. -/
theorem mem_childrenOf_iff (c p : String) :
    c ∈ childrenOf folders p ↔ ∃ f ∈ folders, f.id = c ∧ f.parent = p := by
  rw [childrenOf]
  simp only [List.mem_map, List.mem_filter]
  constructor
  · rintro ⟨f, ⟨hf, hp⟩, hc⟩
    exact ⟨f, hf, hc, beq_iff_eq.mp hp⟩
  · rintro ⟨f, hf, hc, hp⟩
    exact ⟨f, ⟨hf, beq_iff_eq.mpr hp⟩, hc⟩

/-- With distinct ids: membership in a `children` list, in terms of the
`parents` map. -/
theorem mem_childrenOf_iff_parentOf (hN : (folders.map Folder.id).Nodup)
    (c p : String) :
    c ∈ childrenOf folders p ↔
      isFolderId folders c = true ∧ parentOf folders c = p := by
  rw [mem_childrenOf_iff]
  constructor
  · rintro ⟨f, hf, hc, hp⟩
    refine ⟨?_, ?_⟩
    · rw [isFolderId_iff_mem]
      exact hc ▸ List.mem_map_of_mem Folder.id hf
    · rw [← hc, parentOf_of_mem folders hN f hf]
      exact hp
  · rintro ⟨hc, hp⟩
    rw [isFolderId_iff_mem, List.mem_map] at hc
    obtain ⟨f, hf, hfc⟩ := hc
    refine ⟨f, hf, hfc, ?_⟩
    rw [← hp, ← hfc, parentOf_of_mem folders hN f hf]

/-- A `children` list never has duplicate entries when ids are
distinct. -/
theorem childrenOf_nodup (hN : (folders.map Folder.id).Nodup) (p : String) :
    (childrenOf folders p).Nodup := by
  rw [childrenOf]
  have hsub : (folders.filter (fun f => f.parent == p)).map Folder.id
      |>.Sublist (folders.map Folder.id) :=
    List.Sublist.map Folder.id (List.filter_sublist folders)
  exact hsub.nodup hN

/-- Peeling the parent link at the bottom of the chain. -/
theorem chainAncestor_succ_bottom (d : String) (n : Nat) :
    chainAncestor folders d (n + 1) =
      chainAncestor folders (parentOf folders d) n := by
  induction n with
  | zero => rfl
  | succ n ih =>
    show parentOf folders (chainAncestor folders d (n + 1)) =
      chainAncestor folders (parentOf folders d) (n + 1)
    rw [ih]
    rfl

/-- Splitting a chain of parent links. -/
theorem chainAncestor_add (d : String) (a b : Nat) :
    chainAncestor folders d (a + b) =
      chainAncestor folders (chainAncestor folders d a) b := by
  induction b with
  | zero => rfl
  | succ b ih =>
    show parentOf folders (chainAncestor folders d (a + b)) = _
    rw [ih]
    rfl

/-- The canonical path of a directory at depth `n` has `n` segments. -/
theorem chainNames_length (d : String) (n : Nat) :
    (chainNames folders d n).length = n := by
  induction n generalizing d with
  | zero => rfl
  | succ n ih =>
    show (chainNames folders (parentOf folders d) n ++ [nameOf folders d]).length = n + 1
    rw [List.length_append, ih]
    rfl

/-- Reachability at depth 0 is identity. -/
theorem desc_zero (y d : String) : Desc folders y d 0 ↔ d = y := by
  constructor
  · rintro ⟨h, _⟩
    exact h
  · rintro rfl
    exact ⟨rfl, fun k hk => absurd hk (Nat.not_lt_zero k)⟩

/-- Extending reachability downward through one child link. -/
theorem desc_child (y p c : String) (m : Nat) (hp : Desc folders y p m)
    (hc : isFolderId folders c = true) (hpc : parentOf folders c = p) :
    Desc folders y c (m + 1) := by
  obtain ⟨hchain, hids⟩ := hp
  constructor
  · rw [chainAncestor_succ_bottom, hpc]
    exact hchain
  · intro k hk
    cases k with
    | zero => exact hc
    | succ k =>
      rw [chainAncestor_succ_bottom, hpc]
      exact hids k (by omega)

/-- Collapsing reachability upward: a node reachable from a child is
reachable from the parent, one level deeper. -/
theorem desc_up (p c d : String) (n : Nat) (hd : Desc folders c d n)
    (hc : isFolderId folders c = true) (hpc : parentOf folders c = p) :
    Desc folders p d (n + 1) := by
  obtain ⟨hchain, hids⟩ := hd
  constructor
  · show parentOf folders (chainAncestor folders d n) = p
    rw [hchain, hpc]
  · intro k hk
    rcases Nat.lt_or_ge k n with h | h
    · exact hids k h
    · have hkn : k = n := by omega
      rw [hkn, hchain]
      exact hc

/-- Peeling the first step of a positive-depth reachability: the node one
step below `y` on the chain is a child of `y`, and the target is
reachable from it one level shallower. -/
theorem desc_peel (hN : (folders.map Folder.id).Nodup) (y d : String)
    (n : Nat) (hd : Desc folders y d (n + 1)) :
    (chainAncestor folders d n) ∈ childrenOf folders y ∧
      Desc folders (chainAncestor folders d n) d n := by
  obtain ⟨hchain, hids⟩ := hd
  refine ⟨?_, rfl, fun k hk => hids k (by omega)⟩
  rw [mem_childrenOf_iff_parentOf folders hN]
  exact ⟨hids n (Nat.lt_succ_self n), hchain⟩

/-- A cycle in the parent chain repeats forever. -/
theorem chainAncestor_periodic (x : String) (p : Nat)
    (hcyc : chainAncestor folders x (p + 1) = x) (k : Nat) :
    chainAncestor folders x (k + (p + 1)) = chainAncestor folders x k := by
  rw [Nat.add_comm, chainAncestor_add, hcyc]

/-- On a parent-chain cycle, every iterate is a folder id. -/
theorem cycle_all_ids (x : String) (p : Nat)
    (hcyc : Desc folders x x (p + 1)) (k : Nat) :
    isFolderId folders (chainAncestor folders x k) = true := by
  induction k using Nat.strong_induction_on with
  | _ k ih =>
    rcases Nat.lt_or_ge k (p + 1) with h | h
    · exact hcyc.2 k h
    · have hk : k = (k - (p + 1)) + (p + 1) := by omega
      rw [hk, chainAncestor_periodic folders x p hcyc.1]
      exact ih (k - (p + 1)) (by omega)

/-- No node reachable from the root lies on a parent-chain cycle. -/
theorem no_cycle_of_reachable (hR : rootId ∉ folders.map Folder.id)
    (x : String) (m : Nat) (hx : Desc folders rootId x m)
    (p : Nat) (hcyc : Desc folders x x (p + 1)) : False := by
  have hall := cycle_all_ids folders x p hcyc m
  rw [hx.1, isFolderId_iff_mem] at hall
  exact hR hall

/-- The depth of a node reachable from the root is unique. -/
theorem desc_depth_unique (hR : rootId ∉ folders.map Folder.id)
    (d : String) (n n2 : Nat) (h1 : Desc folders rootId d n)
    (h2 : Desc folders rootId d n2) : n = n2 := by
  rcases Nat.lt_trichotomy n n2 with h | h | h
  · exfalso
    have := h2.2 n h
    rw [h1.1, isFolderId_iff_mem] at this
    exact hR this
  · exact h
  · exfalso
    have := h1.2 n2 h
    rw [h2.1, isFolderId_iff_mem] at this
    exact hR this

/-- Equal iterates propagate forward along the chain. -/
theorem chainAncestor_congr_add (d : String) (i j t : Nat)
    (h : chainAncestor folders d i = chainAncestor folders d j) :
    chainAncestor folders d (i + t) = chainAncestor folders d (j + t) := by
  rw [chainAncestor_add, chainAncestor_add, h]

/-- The depth of a node reachable from the root is bounded by the number
of fetched folders: the strict ancestors on the chain are pairwise
distinct folder ids. -/
theorem desc_depth_le (hN : (folders.map Folder.id).Nodup)
    (hR : rootId ∉ folders.map Folder.id) (d : String) (n : Nat)
    (hd : Desc folders rootId d n) : n ≤ folders.length := by
  have hinj : ∀ i < n, ∀ j < n,
      chainAncestor folders d i = chainAncestor folders d j → i = j := by
    intro i hi j hj hij
    rcases Nat.lt_trichotomy i j with h | h | h
    · exfalso
      have ht := chainAncestor_congr_add folders d i j (n - j) hij
      have hin : i + (n - j) < n := by omega
      have hrn : j + (n - j) = n := by omega
      rw [hrn, hd.1] at ht
      have := hd.2 (i + (n - j)) hin
      rw [ht, isFolderId_iff_mem] at this
      exact hR this
    · exact h
    · exfalso
      have ht := chainAncestor_congr_add folders d j i (n - i) hij.symm
      have hin : j + (n - i) < n := by omega
      have hrn : i + (n - i) = n := by omega
      rw [hrn, hd.1] at ht
      have := hd.2 (j + (n - i)) hin
      rw [ht, isFolderId_iff_mem] at this
      exact hR this
  have hnodup : ((List.range n).map (chainAncestor folders d)).Nodup := by
    refine List.Nodup.map_on ?_ (List.nodup_range n)
    intro i hi j hj
    exact hinj i (List.mem_range.mp hi) j (List.mem_range.mp hj)
  have hsub : ((List.range n).map (chainAncestor folders d)) ⊆
      folders.map Folder.id := by
    intro x hx
    rw [List.mem_map] at hx
    obtain ⟨k, hk, hkx⟩ := hx
    have := hd.2 k (List.mem_range.mp hk)
    rw [isFolderId_iff_mem] at this
    exact hkx ▸ this
  have := (List.subperm_of_subset hnodup hsub).length_le
  rw [List.length_map, List.length_range, List.length_map] at this
  exact this

/-- Subtrees of two distinct children of one reachable parent are
disjoint: no node is reachable from both. -/
theorem sibling_subtrees_disjoint (hN : (folders.map Folder.id).Nodup)
    (hR : rootId ∉ folders.map Folder.id) (p : String) (mp : Nat)
    (hp : Desc folders rootId p mp) (c1 c2 : String)
    (hc1 : c1 ∈ childrenOf folders p) (hc2 : c2 ∈ childrenOf folders p)
    (hne : c1 ≠ c2) (d : String) (k n : Nat)
    (h1 : Desc folders c1 d k) (h2 : Desc folders c2 d n) : False := by
  rcases Nat.lt_trichotomy k n with h | h | h
  · have hpc1 := (mem_childrenOf_iff_parentOf folders hN c1 p).mp hc1
    have hpc2 := (mem_childrenOf_iff_parentOf folders hN c2 p).mp hc2
    refine no_cycle_of_reachable folders rootId hR p mp hp (n - k - 1) ?_
    constructor
    · have hstep : chainAncestor folders d (k + 1) = p := by
        show parentOf folders (chainAncestor folders d k) = p
        rw [h1.1, hpc1.2]
      have hstep2 : chainAncestor folders d (n + 1) = p := by
        show parentOf folders (chainAncestor folders d n) = p
        rw [h2.1, hpc2.2]
      have := chainAncestor_add folders d (k + 1) (n - k - 1 + 1)
      rw [hstep] at this
      have harith : k + 1 + (n - k - 1 + 1) = n + 1 := by omega
      rw [harith, hstep2] at this
      exact this.symm
    · intro l hl
      have : chainAncestor folders p l = chainAncestor folders d (k + 1 + l) := by
        have hstep : chainAncestor folders d (k + 1) = p := by
          show parentOf folders (chainAncestor folders d k) = p
          rw [h1.1, ((mem_childrenOf_iff_parentOf folders hN c1 p).mp hc1).2]
        rw [chainAncestor_add folders d (k + 1) l, hstep]
      rw [this]
      rcases Nat.lt_or_ge (k + 1 + l) n with hlt | hge
      · exact h2.2 (k + 1 + l) hlt
      · have heq : k + 1 + l = n := by omega
        rw [heq, h2.1]
        exact ((mem_childrenOf_iff_parentOf folders hN c2 p).mp hc2).1
  · exact hne (by rw [← h1.1, ← h2.1, h])
  · have hpc1 := (mem_childrenOf_iff_parentOf folders hN c1 p).mp hc1
    have hpc2 := (mem_childrenOf_iff_parentOf folders hN c2 p).mp hc2
    refine no_cycle_of_reachable folders rootId hR p mp hp (k - n - 1) ?_
    constructor
    · have hstep : chainAncestor folders d (n + 1) = p := by
        show parentOf folders (chainAncestor folders d n) = p
        rw [h2.1, hpc2.2]
      have hstep2 : chainAncestor folders d (k + 1) = p := by
        show parentOf folders (chainAncestor folders d k) = p
        rw [h1.1, hpc1.2]
      have := chainAncestor_add folders d (n + 1) (k - n - 1 + 1)
      rw [hstep] at this
      have harith : n + 1 + (k - n - 1 + 1) = k + 1 := by omega
      rw [harith, hstep2] at this
      exact this.symm
    · intro l hl
      have : chainAncestor folders p l = chainAncestor folders d (n + 1 + l) := by
        have hstep : chainAncestor folders d (n + 1) = p := by
          show parentOf folders (chainAncestor folders d n) = p
          rw [h2.1, hpc2.2]
        rw [chainAncestor_add folders d (n + 1) l, hstep]
      rw [this]
      rcases Nat.lt_or_ge (n + 1 + l) k with hlt | hge
      · exact h1.2 (n + 1 + l) hlt
      · have heq : n + 1 + l = k := by omega
        rw [heq, h1.1]
        exact hpc1.1

/-- Reachability is reflexive at depth 0. -/
theorem desc_refl (y : String) : Desc folders y y 0 :=
  ⟨rfl, fun k hk => absurd hk (Nat.not_lt_zero k)⟩

end PathIndex

/-- Lookup at the key just inserted. -/
theorem lookup_cons_self {β : Type} (a : String) (b : β)
    (l : List (String × β)) : ((a, b) :: l).lookup a = some b := by
  simp [List.lookup]

/-- Lookup at another key skips the inserted head. -/
theorem lookup_cons_ne {β : Type} (a k : String) (b : β)
    (l : List (String × β)) (h : k ≠ a) :
    ((a, b) :: l).lookup k = l.lookup k := by
  have hb : (k == a) = false := beq_eq_false_iff_ne.mpr h
  simp [List.lookup, hb]

section PathIndex

variable (folders : List Folder) (rootId : String)

/-- Unfold lemma for `addChild` at fuel 0. -/
theorem addChild_zero (id parent : String) (ps : List (String × Path)) :
    addChild folders 0 id parent ps = ps := rfl

/-- Unfold lemma for `addChild` at positive fuel. -/
theorem addChild_succ (fuel : Nat) (id parent : String)
    (ps : List (String × Path)) :
    addChild folders (fuel + 1) id parent ps =
      (if (ps.lookup id).isSome then ps
      else
        match ps.lookup parent with
        | none => ps
        | some par =>
          (childrenOf folders id).foldl
            (fun ps c => addChild folders fuel c id ps)
            ((id, par ++ [nameOf folders id]) :: ps)) := rfl

/-- Behaviour of the `add_child` walk over a list of children of a
reachable node `p`, assuming the behaviour of `addChild` at the current
fuel (the induction hypothesis `ihP`): the accumulated map only grows,
the new keys lie in the children's subtrees, canonicity is preserved, and
every subtree node within fuel depth ends up in the map. -/
theorem addChild_foldl_spec (hN : (folders.map Folder.id).Nodup)
    (hR : rootId ∉ folders.map Folder.id) (fuel : Nat)
    (ihP : ∀ (id parent : String) (ps : List (String × Path)) (pp : Path) (mp : Nat),
      id ∈ childrenOf folders parent →
      ps.lookup parent = some pp →
      Desc folders rootId parent mp →
      pp = chainNames folders parent mp →
      Canon folders rootId ps →
      (∀ d n, Desc folders id d n → ps.lookup d = none) →
      (∀ k q, ps.lookup k = some q →
        (addChild folders fuel id parent ps).lookup k = some q) ∧
      (∀ k q, (addChild folders fuel id parent ps).lookup k = some q →
        ps.lookup k = some q ∨ ∃ n, Desc folders id k n) ∧
      Canon folders rootId (addChild folders fuel id parent ps) ∧
      (∀ d n, Desc folders id d n → n < fuel →
        ∃ q, (addChild folders fuel id parent ps).lookup d = some q))
    (p : String) (mp : Nat) (hp : Desc folders rootId p mp) :
    ∀ (cs : List String), cs ⊆ childrenOf folders p → cs.Nodup →
    ∀ (acc : List (String × Path)),
      acc.lookup p = some (chainNames folders p mp) →
      Canon folders rootId acc →
      (∀ c ∈ cs, ∀ d n, Desc folders c d n → acc.lookup d = none) →
      (∀ k q, acc.lookup k = some q →
        (cs.foldl (fun ps c => addChild folders fuel c p ps) acc).lookup k = some q) ∧
      (∀ k q, (cs.foldl (fun ps c => addChild folders fuel c p ps) acc).lookup k = some q →
        acc.lookup k = some q ∨ ∃ c ∈ cs, ∃ n, Desc folders c k n) ∧
      Canon folders rootId (cs.foldl (fun ps c => addChild folders fuel c p ps) acc) ∧
      (∀ c ∈ cs, ∀ d n, Desc folders c d n → n < fuel →
        ∃ q, (cs.foldl (fun ps c => addChild folders fuel c p ps) acc).lookup d = some q) := by
  intro cs
  induction cs with
  | nil =>
    intro _ _ acc hacc hcanon hfresh
    refine ⟨fun k q h => h, fun k q h => Or.inl h, hcanon, ?_⟩
    intro c hc
    cases hc
  | cons c cs2 ihQ =>
    intro hsub hnd acc haccp hcanon hfresh
    rw [List.foldl_cons]
    have hc : c ∈ childrenOf folders p := hsub (List.mem_cons_self c cs2)
    obtain ⟨hmono, hdom, hcanon2, hcov⟩ :=
      ihP c p acc (chainNames folders p mp) mp hc haccp hp rfl hcanon
        (hfresh c (List.mem_cons_self c cs2))
    have hnd2 := List.nodup_cons.mp hnd
    have haccp2 : (addChild folders fuel c p acc).lookup p =
        some (chainNames folders p mp) := hmono p _ haccp
    have hfresh2 : ∀ c2 ∈ cs2, ∀ d n, Desc folders c2 d n →
        (addChild folders fuel c p acc).lookup d = none := by
      intro c2 hc2 d n hdn
      cases hl : (addChild folders fuel c p acc).lookup d with
      | none => rfl
      | some q =>
        exfalso
        rcases hdom d q hl with h2 | ⟨n2, hdn2⟩
        · rw [hfresh c2 (List.mem_cons_of_mem c hc2) d n hdn] at h2
          cases h2
        · have hne : c ≠ c2 := fun he => hnd2.1 (he ▸ hc2)
          exact sibling_subtrees_disjoint folders rootId hN hR p mp hp c c2
            hc (hsub (List.mem_cons_of_mem c hc2)) hne d n2 n hdn2 hdn
    obtain ⟨hmono3, hdom3, hcanon3, hcov3⟩ :=
      ihQ (fun x hx => hsub (List.mem_cons_of_mem c hx)) hnd2.2
        (addChild folders fuel c p acc) haccp2 hcanon2 hfresh2
    refine ⟨fun k q h => hmono3 k q (hmono k q h), ?_, hcanon3, ?_⟩
    · intro k q h
      rcases hdom3 k q h with h2 | ⟨c2, hc2, n, hdn⟩
      · rcases hdom k q h2 with h3 | ⟨n, hdn⟩
        · exact Or.inl h3
        · exact Or.inr ⟨c, List.mem_cons_self c cs2, n, hdn⟩
      · exact Or.inr ⟨c2, List.mem_cons_of_mem c hc2, n, hdn⟩
    · intro c2 hc2 d n hdn hlt
      rcases List.mem_cons.mp hc2 with h2 | h2
      · obtain ⟨q, hq⟩ := hcov d n (h2 ▸ hdn) hlt
        exact ⟨q, hmono3 d q hq⟩
      · exact hcov3 c2 h2 d n hdn hlt

/-- Full behavioural specification of `add_child` on a fresh subtree:
assuming the parent is already mapped to its canonical path and no node
of the subtree of `id` is mapped yet, the walk only adds entries, the
added keys all lie in the subtree of `id`, every entry stays canonical,
and every subtree node within fuel depth gets mapped. -/
theorem addChild_spec (hN : (folders.map Folder.id).Nodup)
    (hR : rootId ∉ folders.map Folder.id) :
    ∀ (fuel : Nat) (id parent : String) (ps : List (String × Path)) (pp : Path) (mp : Nat),
      id ∈ childrenOf folders parent →
      ps.lookup parent = some pp →
      Desc folders rootId parent mp →
      pp = chainNames folders parent mp →
      Canon folders rootId ps →
      (∀ d n, Desc folders id d n → ps.lookup d = none) →
      (∀ k q, ps.lookup k = some q →
        (addChild folders fuel id parent ps).lookup k = some q) ∧
      (∀ k q, (addChild folders fuel id parent ps).lookup k = some q →
        ps.lookup k = some q ∨ ∃ n, Desc folders id k n) ∧
      Canon folders rootId (addChild folders fuel id parent ps) ∧
      (∀ d n, Desc folders id d n → n < fuel →
        ∃ q, (addChild folders fuel id parent ps).lookup d = some q) := by
  intro fuel
  induction fuel with
  | zero =>
    intro id parent ps pp mp _ _ _ _ hcanon _
    rw [addChild_zero]
    exact ⟨fun k q h => h, fun k q h => Or.inl h, hcanon,
      fun d n _ hlt => absurd hlt (Nat.not_lt_zero n)⟩
  | succ fuel ih =>
    intro id parent ps pp mp hchild hpl hpd hpp hcanon hfresh
    have hguard : ps.lookup id = none := hfresh id 0 (desc_refl folders id)
    have hcp := (mem_childrenOf_iff_parentOf folders hN id parent).mp hchild
    have hdid : Desc folders rootId id (mp + 1) :=
      desc_child folders rootId parent id mp hpd hcp.1 hcp.2
    have hname : pp ++ [nameOf folders id] = chainNames folders id (mp + 1) := by
      show pp ++ [nameOf folders id] =
        chainNames folders (parentOf folders id) mp ++ [nameOf folders id]
      rw [hcp.2, hpp]
    have hred : addChild folders (fuel + 1) id parent ps =
        (childrenOf folders id).foldl
          (fun ps c => addChild folders fuel c id ps)
          ((id, pp ++ [nameOf folders id]) :: ps) := by
      rw [addChild_succ, hguard, hpl]
      rfl
    have hcanon1 : Canon folders rootId ((id, pp ++ [nameOf folders id]) :: ps) := by
      intro k q hk
      by_cases hkid : k = id
      · rw [hkid, lookup_cons_self] at hk
        cases hk
        exact ⟨mp + 1, hkid ▸ hdid, hkid ▸ hname⟩
      · rw [lookup_cons_ne id k _ ps hkid] at hk
        exact hcanon k q hk
    have hlook1 : ((id, pp ++ [nameOf folders id]) :: ps).lookup id =
        some (chainNames folders id (mp + 1)) := by
      rw [lookup_cons_self, hname]
    have hfresh1 : ∀ c ∈ childrenOf folders id, ∀ d n, Desc folders c d n →
        ((id, pp ++ [nameOf folders id]) :: ps).lookup d = none := by
      intro c hcmem d n hdn
      have hcrec := (mem_childrenOf_iff_parentOf folders hN c id).mp hcmem
      have hup : Desc folders id d (n + 1) :=
        desc_up folders id c d n hdn hcrec.1 hcrec.2
      have hdne : d ≠ id := by
        intro he
        exact no_cycle_of_reachable folders rootId hR id (mp + 1) hdid n (he ▸ hup)
      rw [lookup_cons_ne id d _ ps hdne]
      exact hfresh d (n + 1) hup
    obtain ⟨hmono, hdom, hcanonF, hcov⟩ :=
      addChild_foldl_spec folders rootId hN hR fuel ih id (mp + 1) hdid
        (childrenOf folders id) (fun x hx => hx) (childrenOf_nodup folders hN id)
        ((id, pp ++ [nameOf folders id]) :: ps) hlook1 hcanon1 hfresh1
    rw [hred]
    refine ⟨?_, ?_, hcanonF, ?_⟩
    · intro k q hk
      have hkid : k ≠ id := by
        intro he
        rw [he, hguard] at hk
        cases hk
      exact hmono k q (by rw [lookup_cons_ne id k _ ps hkid]; exact hk)
    · intro k q hk
      rcases hdom k q hk with h2 | ⟨c, hcmem, n, hdn⟩
      · by_cases hkid : k = id
        · exact Or.inr ⟨0, hkid ▸ desc_refl folders id⟩
        · rw [lookup_cons_ne id k _ ps hkid] at h2
          exact Or.inl h2
      · have hcrec := (mem_childrenOf_iff_parentOf folders hN c id).mp hcmem
        exact Or.inr ⟨n + 1, desc_up folders id c k n hdn hcrec.1 hcrec.2⟩
    · intro d n hdn hlt
      cases n with
      | zero =>
        have hd : d = id := (desc_zero folders id d).mp hdn
        subst hd
        exact ⟨chainNames folders d (mp + 1), hmono d _ hlook1⟩
      | succ n =>
        obtain ⟨hcmem, hcdesc⟩ := desc_peel folders hN id d n hdn
        exact hcov (chainAncestor folders d n) hcmem d n hcdesc (by omega)

/-- Peeling the last step: the parent of a node at depth `n + 1` is
reachable at depth `n`. -/
theorem desc_parent (d : String) (n : Nat)
    (hd : Desc folders rootId d (n + 1)) :
    Desc folders rootId (parentOf folders d) n := by
  obtain ⟨hchain, hids⟩ := hd
  constructor
  · rw [← chainAncestor_succ_bottom]
    exact hchain
  · intro k hk
    rw [← chainAncestor_succ_bottom]
    exact hids (k + 1) (by omega)

/-- Canonical paths separate distinct reachable directories, provided
sibling names are distinct. -/
theorem chainNames_inj (hN : (folders.map Folder.id).Nodup)
    (hR : rootId ∉ folders.map Folder.id)
    (hSib : ∀ f ∈ folders, ∀ g ∈ folders,
      f.parent = g.parent → f.name = g.name → f.id = g.id) :
    ∀ (n1 : Nat) (d1 : String) (n2 : Nat) (d2 : String),
      Desc folders rootId d1 n1 → Desc folders rootId d2 n2 → d1 ≠ d2 →
      chainNames folders d1 n1 ≠ chainNames folders d2 n2 := by
  intro n1
  induction n1 with
  | zero =>
    intro d1 n2 d2 h1 h2 hne heq
    cases n2 with
    | zero => exact hne (((desc_zero folders rootId d1).mp h1).trans
        ((desc_zero folders rootId d2).mp h2).symm)
    | succ l2 =>
      have := congrArg List.length heq
      rw [chainNames_length, chainNames_length] at this
      cases this
  | succ l ih =>
    intro d1 n2 d2 h1 h2 hne heq
    cases n2 with
    | zero =>
      have := congrArg List.length heq
      rw [chainNames_length, chainNames_length] at this
      cases this
    | succ l2 =>
      have hll : l = l2 := by
        have := congrArg List.length heq
        rw [chainNames_length, chainNames_length] at this
        omega
      subst hll
      have heq2 : chainNames folders (parentOf folders d1) l ++ [nameOf folders d1] =
          chainNames folders (parentOf folders d2) l ++ [nameOf folders d2] := heq
      obtain ⟨hpre, hsuf⟩ := List.append_inj heq2
        (by rw [chainNames_length, chainNames_length])
      have hnames : nameOf folders d1 = nameOf folders d2 := by
        simpa using hsuf
      have hp1 := desc_parent folders rootId d1 l h1
      have hp2 := desc_parent folders rootId d2 l h2
      by_cases hpp : parentOf folders d1 = parentOf folders d2
      · have hid1 : isFolderId folders d1 = true := h1.2 0 (by omega)
        have hid2 : isFolderId folders d2 = true := h2.2 0 (by omega)
        rw [isFolderId_iff_mem, List.mem_map] at hid1 hid2
        obtain ⟨f1, hf1, hf1id⟩ := hid1
        obtain ⟨f2, hf2, hf2id⟩ := hid2
        refine hne ?_
        rw [← hf1id, ← hf2id]
        refine hSib f1 hf1 f2 hf2 ?_ ?_
        · have e1 : parentOf folders f1.id = f1.parent := parentOf_of_mem folders hN f1 hf1
          have e2 : parentOf folders f2.id = f2.parent := parentOf_of_mem folders hN f2 hf2
          rw [hf1id] at e1
          rw [hf2id] at e2
          rw [← e1, ← e2]
          exact hpp
        · have e1 : nameOf folders f1.id = f1.name := nameOf_of_mem folders hN f1 hf1
          have e2 : nameOf folders f2.id = f2.name := nameOf_of_mem folders hN f2 hf2
          rw [hf1id] at e1
          rw [hf2id] at e2
          rw [← e1, ← e2]
          exact hnames
      · exact ih (parentOf folders d1) l (parentOf folders d2) hp1 hp2 hpp hpre

/-- Top-level specification of the path resolution: on a tree-shaped
listing (distinct ids, root not a folder), every directory reachable from
the root is mapped to its canonical path. -/
theorem buildPaths_complete (hN : (folders.map Folder.id).Nodup)
    (hR : rootId ∉ folders.map Folder.id) :
    ∀ d n, Desc folders rootId d n →
      (buildPaths folders rootId).lookup d = some (chainNames folders d n) := by
  have hcanon0 : Canon folders rootId [(rootId, ([] : Path))] := by
    intro k q hk
    by_cases hkr : k = rootId
    · subst hkr
      rw [lookup_cons_self] at hk
      cases hk
      exact ⟨0, desc_refl folders k, rfl⟩
    · rw [lookup_cons_ne rootId k _ [] hkr] at hk
      cases hk
  have haccp : ([(rootId, ([] : Path))]).lookup rootId =
      some (chainNames folders rootId 0) := by
    rw [lookup_cons_self]
    rfl
  have hfresh0 : ∀ c ∈ childrenOf folders rootId, ∀ d n, Desc folders c d n →
      ([(rootId, ([] : Path))]).lookup d = none := by
    intro c hc d n hdn
    have hdne : d ≠ rootId := by
      intro he
      subst he
      cases n with
      | zero =>
        have : d = c := hdn.1
        rw [mem_childrenOf_iff_parentOf folders hN] at hc
        rw [← this] at hc
        rw [isFolderId_iff_mem] at hc
        exact hR hc.1
      | succ n =>
        have := hdn.2 0 (by omega)
        rw [isFolderId_iff_mem] at this
        exact hR this
    rw [lookup_cons_ne rootId d _ [] hdne]
    rfl
  obtain ⟨hmono, hdom, hcanonF, hcov⟩ :=
    addChild_foldl_spec folders rootId hN hR folders.length
      (addChild_spec folders rootId hN hR folders.length) rootId 0
      (desc_refl folders rootId) (childrenOf folders rootId)
      (fun x hx => hx) (childrenOf_nodup folders hN rootId)
      [(rootId, ([] : Path))] haccp hcanon0 hfresh0
  unfold buildPaths
  intro d n hdn
  cases n with
  | zero =>
    have hd : d = rootId := (desc_zero folders rootId d).mp hdn
    subst hd
    exact hmono d ([] : Path) (by rw [lookup_cons_self])
  | succ l =>
    obtain ⟨hcmem, hcdesc⟩ := desc_peel folders hN rootId d l hdn
    have hbound : l + 1 ≤ folders.length :=
      desc_depth_le folders rootId hN hR d (l + 1) hdn
    obtain ⟨q, hq⟩ := hcov (chainAncestor folders d l) hcmem d l hcdesc (by omega)
    obtain ⟨m, hm, hqm⟩ := hcanonF d q hq
    have hmn : m = l + 1 := desc_depth_unique folders rootId hR d m (l + 1) hm hdn
    rw [hq, hqm, hmn]

end PathIndex

/-- C5 amended: the path index built by `GDriveRepo::new` works from the
first page of the folder listing only; when every directory object of the
backend appears on that first page, the parent-link graph is a tree
rooted at the backend root (distinct ids, root not itself a listed
folder), and sibling directories have distinct names, every directory
reachable from the root is assigned exactly one path — its canonical
root-to-leaf name path — and distinct reachable directories never map to
the same path. -/
theorem newIndex_first_page_tree_correct (pages : List (List Folder))
    (rootId : String)
    (hall : pages.flatten = newIndexFolders pages)
    (hN : ((newIndexFolders pages).map Folder.id).Nodup)
    (hR : rootId ∉ (newIndexFolders pages).map Folder.id)
    (hSib : ∀ f ∈ newIndexFolders pages, ∀ g ∈ newIndexFolders pages,
      f.parent = g.parent → f.name = g.name → f.id = g.id) :
    (∀ d n, Desc pages.flatten rootId d n →
      (newIndexPaths pages rootId).lookup d =
        some (chainNames pages.flatten d n)) ∧
    (∀ d1 n1 d2 n2, Desc pages.flatten rootId d1 n1 →
      Desc pages.flatten rootId d2 n2 → d1 ≠ d2 →
      (newIndexPaths pages rootId).lookup d1 ≠
        (newIndexPaths pages rootId).lookup d2) := by
  rw [hall]
  unfold newIndexPaths
  constructor
  · exact buildPaths_complete (newIndexFolders pages) rootId hN hR
  · intro d1 n1 d2 n2 h1 h2 hne
    rw [buildPaths_complete (newIndexFolders pages) rootId hN hR d1 n1 h1,
      buildPaths_complete (newIndexFolders pages) rootId hN hR d2 n2 h2]
    intro heq
    rw [Option.some.injEq] at heq
    exact chainNames_inj (newIndexFolders pages) rootId hN hR hSib
      n1 d1 n2 d2 h1 h2 hne heq

/-- Witness for the amended C5: a one-page listing with a single folder
`a` below the root. -/
theorem newIndex_first_page_tree_correct_witness :
    (∀ d n, Desc [[(⟨"ida", "a", "root"⟩ : Folder)]].flatten "root" d n →
      (newIndexPaths [[⟨"ida", "a", "root"⟩]] "root").lookup d =
        some (chainNames [[(⟨"ida", "a", "root"⟩ : Folder)]].flatten d n)) ∧
    (∀ d1 n1 d2 n2,
      Desc [[(⟨"ida", "a", "root"⟩ : Folder)]].flatten "root" d1 n1 →
      Desc [[(⟨"ida", "a", "root"⟩ : Folder)]].flatten "root" d2 n2 → d1 ≠ d2 →
      (newIndexPaths [[⟨"ida", "a", "root"⟩]] "root").lookup d1 ≠
        (newIndexPaths [[⟨"ida", "a", "root"⟩]] "root").lookup d2) :=
  newIndex_first_page_tree_correct [[⟨"ida", "a", "root"⟩]] "root"
    rfl (by decide) (by decide) (by decide)

end Dsync
